import Mathlib

/-!
Verification of the audiogames.net forum downloader (src/downloader.py).

The whole program is shallowly embedded below.  HTTP fetching is modelled as a
pure environment `Web` mapping URLs to parsed documents; the SQLite store is an
explicit `DB` record threaded through every function; Python assertion errors,
KeyError, IndexError, ValueError and AttributeError become `Except String`
results.  BeautifulSoup documents are rose trees (`Node`) with the search
functions (`find`, `find_all`) reimplemented over them in document (pre-)order.
Python string operations used by the source are reimplemented over character
lists so that every definition evaluates inside the kernel.
-/

namespace Agfd

/-! ## Python string primitives (over character lists) -/

/-- Model of Python `str.startswith` on character lists. -/
def listStartsWith : List Char → List Char → Bool
  | _, [] => true
  | [], _ :: _ => false
  | a :: as, b :: bs => a == b && listStartsWith as bs

/-- Model of Python `str.startswith`. -/
def strStartsWith (s p : String) : Bool := listStartsWith s.data p.data

/-- Worker for `pyReplace`.  The `Nat` argument counts characters of a matched
pattern occurrence that remain to be skipped, so the recursion is structural on
the list while still replacing every non-overlapping occurrence from the left,
exactly as Python `str.replace` does. -/
def replaceGo (pat rep : List Char) : Nat → List Char → List Char
  | _, [] => []
  | 0, c :: cs =>
      if !pat.isEmpty && listStartsWith (c :: cs) pat then
        rep ++ replaceGo pat rep (pat.length - 1) cs
      else c :: replaceGo pat rep 0 cs
  | k + 1, _ :: cs => replaceGo pat rep k cs

/-- Model of Python `str.replace` (replaces every occurrence). -/
def pyReplace (s pat rep : String) : String := ⟨replaceGo pat.data rep.data 0 s.data⟩

/-- Split a character list at every occurrence of a separator character. -/
def splitChar (sep : Char) : List Char → List (List Char)
  | [] => [[]]
  | c :: cs =>
    let r := splitChar sep cs
    if c == sep then [] :: r
    else match r with
      | [] => [[c]]
      | g :: gs => (c :: g) :: gs

/-- Model of Python `str.split(sep)` for a one-character separator (the source
only ever splits on "/" and ":"). -/
def pySplit (s : String) (sep : Char) : List String := (splitChar sep s.data).map (⟨·⟩)

/-- Decimal digits to a number, most significant first. -/
def digitsToNat : List Char → Nat → Nat
  | [], acc => acc
  | c :: cs, acc => digitsToNat cs (acc * 10 + (c.toNat - 48))

/-- Model of Python `int(s)` for the strings fed to it by this program
(non-empty all-digit URL path segments and page numbers); anything else is a
ValueError, represented as `none`. -/
def parseNatQ (s : String) : Option Nat :=
  if s.data.isEmpty then none
  else if s.data.all Char.isDigit then some (digitsToNat s.data 0)
  else none

/-- Zero-pad a number to a fixed width, as in ISO date formatting. -/
def pad (w n : Nat) : String :=
  let s := toString n
  ⟨List.replicate (w - s.data.length) '0' ++ s.data⟩

/-- True when `pat` occurs as a contiguous substring of `s` (used only to state
that a signature text ends up inside a normalized body). -/
def occursIn (pat s : String) : Bool :=
  let rec go : List Char → Bool
    | [] => pat.data.isEmpty
    | c :: cs => listStartsWith (c :: cs) pat.data || go cs
  go s.data

/-! ## Dates and times

`datetime.utcnow()` is modelled by passing the current UTC calendar date
`today : Date` as a parameter (only its `.date()` is ever used by the source);
`timedelta(days=1)` subtraction becomes `prevDate`. -/

structure Date where
  year : Nat
  month : Nat
  day : Nat
deriving Repr, DecidableEq

structure Time where
  hour : Nat
  minute : Nat
  second : Nat
deriving Repr, DecidableEq

structure DateTime where
  date : Date
  time : Time
deriving Repr, DecidableEq

/-- Gregorian leap-year rule, as in Python `datetime`. -/
def isLeap (y : Nat) : Bool := (y % 4 == 0 && y % 100 != 0) || (y % 400 == 0)

/-- Number of days in a month. -/
def daysInMonth (y m : Nat) : Nat :=
  match m with
  | 1 => 31 | 2 => if isLeap y then 29 else 28 | 3 => 31 | 4 => 30
  | 5 => 31 | 6 => 30 | 7 => 31 | 8 => 31 | 9 => 30 | 10 => 31
  | 11 => 30 | 12 => 31 | _ => 0

/-- The calendar date one day earlier (`utcnow - timedelta(days=1)`, then
`.date()`). -/
def prevDate (d : Date) : Date :=
  if d.day > 1 then ⟨d.year, d.month, d.day - 1⟩
  else if d.month > 1 then ⟨d.year, d.month - 1, daysInMonth d.year (d.month - 1)⟩
  else ⟨d.year - 1, 12, 31⟩

/-- Model of Python `date.isoformat()`. -/
def Date.isoformat (d : Date) : String :=
  pad 4 d.year ++ "-" ++ pad 2 d.month ++ "-" ++ pad 2 d.day

/-- Parse an exactly `w`-digit number. -/
def parseFixedNat (s : String) (w : Nat) : Option Nat :=
  if s.data.length == w && s.data.all Char.isDigit then some (digitsToNat s.data 0)
  else none

/-- Parse the `YYYY-MM-DD` part of an ISO string, with the range validation
`datetime.fromisoformat` performs. -/
def parseIsoDate (s : String) : Option Date :=
  match pySplit s '-' with
  | [y, m, d] =>
    match parseFixedNat y 4, parseFixedNat m 2, parseFixedNat d 2 with
    | some yy, some mm, some dd =>
      if 1 ≤ yy && 1 ≤ mm && mm ≤ 12 && 1 ≤ dd && dd ≤ daysInMonth yy mm then
        some ⟨yy, mm, dd⟩
      else none
    | _, _, _ => none
  | _ => none

/-- Parse the `HH[:MM[:SS]]` part of an ISO string (fractional seconds and
offsets never occur in the forum markup and are not modelled). -/
def parseIsoTime (s : String) : Option Time :=
  match pySplit s ':' with
  | [h] =>
    match parseFixedNat h 2 with
    | some hh => if hh ≤ 23 then some ⟨hh, 0, 0⟩ else none
    | none => none
  | [h, m] =>
    match parseFixedNat h 2, parseFixedNat m 2 with
    | some hh, some mm => if hh ≤ 23 && mm ≤ 59 then some ⟨hh, mm, 0⟩ else none
    | _, _ => none
  | [h, m, sec] =>
    match parseFixedNat h 2, parseFixedNat m 2, parseFixedNat sec 2 with
    | some hh, some mm, some ss =>
      if hh ≤ 23 && mm ≤ 59 && ss ≤ 59 then some ⟨hh, mm, ss⟩ else none
    | _, _, _ => none
  | _ => none

/-- Model of Python `datetime.fromisoformat` (3.7 behaviour): ten characters of
date, then optionally one arbitrary separator character and a time of day. -/
def fromisoformat (s : String) : Except String DateTime :=
  match parseIsoDate ⟨s.data.take 10⟩ with
  | none => .error "ValueError: invalid isoformat string"
  | some d =>
    match s.data.drop 10 with
    | [] => .ok ⟨d, ⟨0, 0, 0⟩⟩
    | _ :: rest =>
      match parseIsoTime ⟨rest⟩ with
      | some t => .ok ⟨d, t⟩
      | none => .error "ValueError: invalid isoformat string"

/-- Embeds `parse_datetime` (src/downloader.py lines 263 to 277).  Relative
prefixes Yesterday and Today are substituted (via `str.replace`) with the
resolved calendar date before the full ISO parse; `today` stands for the date
of `datetime.utcnow()`. -/
def parse_datetime (today : Date) (text : String) : Except String DateTime :=
  if strStartsWith text "Yesterday" then
    fromisoformat (pyReplace text "Yesterday" (prevDate today).isoformat)
  else if strStartsWith text "Today" then
    fromisoformat (pyReplace text "Today" today.isoformat)
  else fromisoformat text

/-! ## The document model

BeautifulSoup trees become rose trees with two node kinds, mirroring the
`Union[Tag, NavigableString]` the source manipulates.  The `class` attribute is
kept as a separate list of class names, as BeautifulSoup itself presents it. -/

inductive Node where
  | nstring (s : String)
  | tag (name : String) (attrs : List (String × String)) (classes : List String)
        (children : List Node)

/-- Direct children (iterating over a Tag in BeautifulSoup). -/
def Node.children : Node → List Node
  | .nstring _ => []
  | .tag _ _ _ cs => cs

/-- The class list of a tag (`tag["class"]`). -/
def Node.classes : Node → List String
  | .nstring _ => []
  | .tag _ _ cls _ => cls

/-- The tag name. -/
def Node.tagName : Node → String
  | .nstring _ => ""
  | .tag t _ _ _ => t

/-- Attribute lookup, `tag["href"]`; `none` is Python KeyError. -/
def Node.attr : Node → String → Option String
  | .nstring _, _ => none
  | .tag _ attrs _ _, k => (attrs.find? (fun p => p.1 == k)).map (·.2)

mutual

/-- Concatenated text of all string descendants (`tag.text`). -/
def Node.text : Node → String
  | .nstring s => s
  | .tag _ _ _ cs => textList cs

def textList : List Node → String
  | [] => ""
  | c :: cs => c.text ++ textList cs

end

/-- Does a class constraint match a class list (`attrs={"class": c}`)? -/
def clsOk : Option String → List String → Bool
  | none, _ => true
  | some c, classes => classes.contains c

mutual

/-- First matching tag among a node list and all its descendants, in document
(pre-)order: a node is tested before its own children. -/
def findTagList (nm : String) (cls : Option String) : List Node → Option Node
  | [] => none
  | c :: cs =>
    match findTagNode nm cls c with
    | some r => some r
    | none => findTagList nm cls cs

def findTagNode (nm : String) (cls : Option String) : Node → Option Node
  | .nstring _ => none
  | .tag t a classes ch =>
    if t == nm && clsOk cls classes then some (.tag t a classes ch)
    else findTagList nm cls ch

end

/-- Model of `tag.find(name, attrs={"class": cls})`: searches descendants of
the tag, not the tag itself. -/
def Node.findTag (n : Node) (nm : String) (cls : Option String) : Option Node :=
  findTagList nm cls n.children

mutual

/-- Every matching tag among a node list and its descendants in document
order (`find_all`). -/
def findAllList (nm : String) (cls : Option String) : List Node → List Node
  | [] => []
  | c :: cs => findAllNode nm cls c ++ findAllList nm cls cs

def findAllNode (nm : String) (cls : Option String) : Node → List Node
  | .nstring _ => []
  | .tag t a classes ch =>
    (if t == nm && clsOk cls classes then [Node.tag t a classes ch] else [])
      ++ findAllList nm cls ch

end

/-- Model of `tag.find_all(name, attrs={"class": cls})`. -/
def Node.findAll (n : Node) (nm : String) (cls : Option String) : List Node :=
  findAllList nm cls n.children

mutual

/-- First tag satisfying a predicate, in document order (`tag.find(lambda)`:
BeautifulSoup passes only Tags to the predicate). -/
def findPredList (p : Node → Bool) : List Node → Option Node
  | [] => none
  | c :: cs =>
    match findPredNode p c with
    | some r => some r
    | none => findPredList p cs

def findPredNode (p : Node → Bool) : Node → Option Node
  | .nstring _ => none
  | .tag t a classes ch =>
    if p (.tag t a classes ch) then some (.tag t a classes ch)
    else findPredList p ch

end

/-- Model of `tag.find(predicate)` over the descendants of `n`. -/
def Node.findPred (n : Node) (p : Node → Bool) : Option Node :=
  findPredList p n.children

/-! ## Entities and the repository

The four SQLAlchemy models become records; the SQLite session becomes an
explicit `DB` value.  `save` on a Room/Thread is an upsert keyed by the
autoincrement id; a Thread created but not yet committed is modelled with
`id = none` (pending), matching the source, which builds a Thread object and
only persists it when the thread or one of its posts is saved. -/

structure User where
  id : Nat
  name : String
  registered : Option DateTime
deriving Repr, DecidableEq

structure Room where
  id : Nat
  name : String
deriving Repr, DecidableEq

structure Thread where
  id : Option Nat
  name : String
  roomId : Nat
  userId : Option Nat
deriving Repr, DecidableEq

structure Post where
  id : Nat
  posted : DateTime
  text : String
  url : String
  userId : Nat
  threadId : Nat
deriving Repr, DecidableEq

structure DB where
  users : List User
  rooms : List Room
  threads : List Thread
  posts : List Post
deriving Repr, DecidableEq

/-- The crawl state: the repository plus the log of URLs fetched so far (the
log makes the no-fetch parts of the claims statable). -/
structure St where
  db : DB
  fetched : List String
deriving Repr, DecidableEq

/-- The network, as a pure environment: every URL has a parsed document. -/
structure Web where
  fetch : String → Node

/-- One rate-limited `http.get` plus BeautifulSoup parse. -/
def fetchPage (w : Web) (st : St) (u : String) : St × Node :=
  ({ st with fetched := st.fetched ++ [u] }, w.fetch u)

/-- Next SQLite autoincrement id (max existing rowid plus one). -/
def freshId (ids : List Nat) : Nat := ids.foldr (fun a b => max a b) 0 + 1

def freshUserId (db : DB) : Nat := freshId (db.users.map (·.id))

def freshRoomId (db : DB) : Nat := freshId (db.rooms.map (·.id))

def freshThreadId (db : DB) : Nat := freshId (db.threads.map (fun t => t.id.getD 0))

/-- Commit of a Thread (directly via `thread.save()` or cascaded from
`post.save()`): a pending thread gets a fresh id and is inserted, a persistent
one is updated in place. -/
def saveThread (db : DB) (t : Thread) : DB × Thread :=
  match t.id with
  | some _ =>
    ({ db with threads := db.threads.map (fun x => if x.id == t.id then t else x) }, t)
  | none =>
    let t2 : Thread := { t with id := some (freshThreadId db) }
    ({ db with threads := db.threads ++ [t2] }, t2)

/-- Commit of a Room (`room.save()`), an upsert keyed by id. -/
def saveRoom (db : DB) (r : Room) : DB :=
  if db.rooms.any (fun x => x.id == r.id) then
    { db with rooms := db.rooms.map (fun x => if x.id == r.id then r else x) }
  else { db with rooms := db.rooms ++ [r] }

/-- The idempotency gate at thread level:
`Post.query(id=most_recent_id).first() is not None`. -/
def postExists (db : DB) (i : Nat) : Bool := db.posts.any (fun p => p.id == i)

/-- `Post.count(id=post_id) > 0` where `post_id` is still a string: SQLite
integer affinity converts the text to a number before comparing with the
integer primary key, so a non-numeric string matches nothing. -/
def strMatchesId (s : String) (n : Nat) : Bool :=
  match parseNatQ s with
  | some m => m == n
  | none => false

/-! ## Listing entries

`get_latest_id` reads `h3.parent.parent`, so a listing entry is the pair of
the h3 heading and its grandparent element.  `entriesOf` recovers exactly the
pairs the source sees when it runs `soup.find_all("h3")` and then walks two
parents up (for an h3 shallower than two levels the chain is clamped at the
document; real listing pages nest headings deeper). -/

structure Entry where
  h3 : Node
  container : Node

/-- All h3 descendants in document order, each paired with its grandparent. -/
def collectEntries (gp parent : Node) : List Node → List Entry
  | [] => []
  | .nstring _ :: cs => collectEntries gp parent cs
  | .tag t a cl ch :: cs =>
    (if t == "h3" then [⟨.tag t a cl ch, gp⟩] else [])
      ++ collectEntries parent (.tag t a cl ch) ch
      ++ collectEntries gp parent cs

def entriesOf (soup : Node) : List Entry := collectEntries soup soup soup.children

/-- The forum root URL (module constant `url`). -/
def url : String := "https://forum.audiogames.net/"

/-! ## The embedded program, bottom-up -/

/-- Embeds `get_latest_id` (lines 108 to 119): the Freshness Oracle.  It takes
no `Web`, so by construction it never fetches; the two missing-element cases
are the assertion failures of the source. -/
def get_latest_id (e : Entry) : Except String Nat :=
  match e.container.findTag "li" (some "info-lastpost") with
  | none => .error "AssertionError: isinstance(li, Tag)"
  | some li =>
    match li.findTag "a" none with
    | none => .error "AssertionError: invalid thread header"
    | some a =>
      match a.attr "href" with
      | none => .error "KeyError: href"
      | some href =>
        match (pySplit ⟨href.data.drop url.data.length⟩ '/')[1]? with
        | none => .error "IndexError: list index out of range"
        | some seg =>
          match parseNatQ seg with
          | none => .error "ValueError: invalid literal for int"
          | some n => .ok n

/-- Embeds `get_page_link` (lines 139 to 148): second-to-last link of the
paging control, `none` (single page) when the control or the link is absent. -/
def get_page_link (soup : Node) : Option Node :=
  match soup.findTag "p" (some "paging") with
  | none => none
  | some p =>
    let links := p.findAll "a" none
    if links.length < 2 then none
    else links[links.length - 2]?

/-- Embeds `parse_page_link` (lines 151 to 159).  The source turns the link
into a template `href[:rindex("/")+1] + "%d"`; here the prefix is returned and
`pageUrl` appends the page number, producing the same URL strings.  A href
without a slash makes `str.rindex` raise ValueError. -/
def parse_page_link (a : Node) : Except String (String × Nat) :=
  match a.attr "href" with
  | none => .error "KeyError: href"
  | some href0 =>
    let href1 : String := ⟨href0.data.take (href0.data.length - 1)⟩
    match pySplit href1 '/' with
    | [_] => .error "ValueError: substring not found"
    | parts =>
      match parseNatQ a.text with
      | none => .error "ValueError: invalid literal for int"
      | some page => .ok (String.intercalate "/" parts.dropLast ++ "/", page)

/-- Instantiation of the page template: `href % page`. -/
def pageUrl (pre : String) (n : Nat) : String := pre ++ toString n

/-- The moved marker test of line 202: `h3.find("em", attrs={"class": "moved"})`
is truthy. -/
def isMoved (h3 : Node) : Bool := (h3.findTag "em" (some "moved")).isSome

/-- Embeds the room lookup-or-create of `parse_room` (lines 171 to 177). -/
def resolveRoom (db : DB) (nm : String) : DB × Room :=
  match db.rooms.find? (fun r => r.name == nm) with
  | some r => (db, r)
  | none =>
    let r : Room := ⟨freshRoomId db, nm⟩
    ({ db with rooms := db.rooms ++ [r] }, r)

/-- Embeds `div.find_all("a")[0]["href"]` of line 287. -/
def getFirstHref (div : Node) : Except String String :=
  match (div.findAll "a" none).head? with
  | none => .error "IndexError: list index out of range"
  | some a =>
    match a.attr "href" with
    | none => .error "KeyError: href"
    | some h => .ok h

/-- Embeds lines 288 to 289: strip the site prefix and `post/`, then take the
segment before the next slash.  The result stays a string, as in the source. -/
def extractPostId (href : String) : String :=
  (pySplit ⟨(href.data.drop url.data.length).drop "post/".data.length⟩ '/').headD ""

/-- The post-level idempotency gate of lines 290 to 291, as a predicate:
the first link parses and its post id is already stored. -/
def msgSkipped (db : DB) (div : Node) : Bool :=
  match getFirstHref div with
  | .error _ => false
  | .ok href => db.posts.any (fun p => strMatchesId (extractPostId href) p.id)

/-- Embeds lines 292 to 294: the byline strong tag holds the author name. -/
def getUsername (div : Node) : Except String String :=
  match div.findTag "span" (some "post-byline") with
  | none => .error "AssertionError: isinstance(span, Tag)"
  | some span =>
    match span.findTag "strong" none with
    | none => .error "AttributeError: NoneType has no attribute text"
    | some strong => .ok strong.text

/-- Embeds the Identity Resolver of lines 295 to 309: exact-name lookup, and on
first sight a single insert with `registered` taken from the author-info
snippet when present. -/
def resolveUser (today : Date) (db : DB) (div : Node) (username : String) :
    Except String (DB × User) :=
  match db.users.find? (fun u => u.name == username) with
  | some u => .ok (db, u)
  | none =>
    match div.findTag "ul" (some "author-info") with
    | none => .error "AssertionError: isinstance(ul, Tag)"
    | some ul =>
      match ul.findPred (fun t => t.tagName == "span" && strStartsWith t.text "Registered:") with
      | none =>
        let u : User := ⟨freshUserId db, username, none⟩
        .ok ({ db with users := db.users ++ [u] }, u)
      | some sp =>
        match sp.findTag "strong" none with
        | none => .error "AttributeError: NoneType has no attribute text"
        | some strong =>
          match parse_datetime today strong.text with
          | .error msg => .error msg
          | .ok dt =>
            let u : User := ⟨freshUserId db, username, some dt⟩
            .ok ({ db with users := db.users ++ [u] }, u)

/-- Embeds lines 310 to 313: a div carrying the `firstpost` class sets the
thread starter and saves the thread. -/
def maybeStarter (db : DB) (thread : Thread) (user : User) (div : Node) : DB × Thread :=
  if div.classes.contains "firstpost" then
    saveThread db { thread with userId := some user.id }
  else (db, thread)

mutual

/-- Pre-order path of the first `div` tag in the tree rooted at a node,
relative to that node: `some []` when the node itself is a div, otherwise a
child index followed by the path inside that child. -/
def divPathNode : Node → Option (List Nat)
  | .nstring _ => none
  | .tag t _ _ ch => if t == "div" then some [] else divPathList 0 ch

def divPathList : Nat → List Node → Option (List Nat)
  | _, [] => none
  | i, c :: cs =>
    match divPathNode c with
    | some p => some (i :: p)
    | none => divPathList (i + 1) cs

end

/-- Pre-order path (a list of child indices) of the first `div` tag among the
descendants of a node.  This represents the object identity of the result of
`content.find("div")` at line 316: the loop at lines 322 to 326 skips a direct
child exactly when that child is the found object, i.e. when the path is the
singleton of its index. -/
def divPathIn : Node → Option (List Nat)
  | .nstring _ => none
  | .tag _ _ _ ch => divPathList 0 ch

/-- Modelled from the spec: the Fragment-to-Text Renderer of section 6 (the
`html2markdown.convert` import, an external collaborator whose code is not in
the repository): `render(markupFragment) -> text`, a pure best-effort textual
rendering of nested markup, modelled as the concatenated text content of the
fragment. -/
def convert (n : Node) : String := Node.text n

/-- Embeds the normalization loop of lines 316 and 320 to 326 and the join of
line 332: iterate the direct children of the content element, drop
NavigableStrings, drop the child that is (by identity) the first `div` found
inside the content, render the rest, and join with one blank line. -/
def buildBody (content : Node) : String :=
  let sig := divPathIn content
  String.intercalate "\n\n" (content.children.enum.filterMap (fun ic =>
    match ic.2 with
    | .nstring _ => none
    | c => if sig == some [ic.1] then none else some (convert c)))

mutual

/-- Does any descendant-or-self tag of a node have name `div`? -/
def containsDivNode : Node → Bool
  | .nstring _ => false
  | .tag t _ _ ch => t == "div" || containsDivList ch

def containsDivList : List Node → Bool
  | [] => false
  | c :: cs => containsDivNode c || containsDivList cs

end

/-- Written from the spec words (amended claim C6), for comparison with
`buildBody`: scan the direct children in document order for the first
block-level (`div`) element of the content; a direct child that is itself that
first `div` is the signature child to skip; if some earlier child merely
contains the first `div` deeper inside, no direct child is the signature. -/
def specSigIndex : Nat → List Node → Option Nat
  | _, [] => none
  | i, .nstring _ :: cs => specSigIndex (i + 1) cs
  | i, .tag t _ _ ch :: cs =>
    if t == "div" then some i
    else if containsDivList ch then none
    else specSigIndex (i + 1) cs

/-- Written from the spec words (amended claim C6): iterate the direct
children in document order, skip pure-text nodes, skip the signature child
singled out by `specSigIndex` when there is one, render every remaining child
and join the results with exactly one blank-line separator. -/
def spec_normalize (content : Node) : String :=
  let sig := specSigIndex 0 content.children
  String.intercalate "\n\n" (content.children.enum.filterMap (fun ic =>
    match ic.2 with
    | .nstring _ => none
    | c => if sig == some ic.1 then none else some (convert c)))

/-- Embeds lines 327 to 338: build the Post and save it.  The commit first
flushes the (possibly pending) thread, whose assigned id the post then
references. -/
def savePost (st : St) (db : DB) (thread : Thread) (user : User) (n : Nat)
    (posted : DateTime) (body href : String) : St × Thread :=
  ({ st with db :=
      { (saveThread db thread).1 with posts := (saveThread db thread).1.posts
          ++ [⟨n, posted, body, href, user.id, (saveThread db thread).2.id.getD 0⟩] } },
   (saveThread db thread).2)

/-- Embeds `parse_message` (lines 280 to 338), split at the idempotency gate:
the body runs only for a post id that is not yet stored. -/
def parse_message_body (today : Date) (st : St) (thread : Thread) (div : Node)
    (href pid : String) : Except String (St × Thread) :=
  match getUsername div with
  | .error msg => .error msg
  | .ok username =>
    match resolveUser today st.db div username with
    | .error msg => .error msg
    | .ok (db1, user) =>
      match div.findTag "div" (some "entry-content") with
      | none => .error "AssertionError: isinstance(content, Tag)"
      | some content =>
        match div.findTag "span" (some "post-link") with
        | none => .error "AssertionError: isinstance(span, Tag)"
        | some linkSpan =>
          match parse_datetime today linkSpan.text with
          | .error msg => .error msg
          | .ok posted =>
            match parseNatQ pid with
            | none => .error "ValueError: invalid literal for int"
            | some n =>
              .ok (savePost st (maybeStarter db1 thread user div).1
                (maybeStarter db1 thread user div).2 user n posted
                (buildBody content) href)

/-- Embeds `parse_message` (lines 280 to 338). -/
def parse_message (today : Date) (st : St) (thread : Thread) (div : Node) :
    Except String (St × Thread) :=
  match getFirstHref div with
  | .error msg => .error msg
  | .ok href =>
    if st.db.posts.any (fun p => strMatchesId (extractPostId href) p.id) then
      .ok (st, thread)
    else parse_message_body today st thread div href (extractPostId href)

/-- The per-page message loop of `parse_thread_page` (lines 256 to 260). -/
def msgsLoop (today : Date) : List Node → St → Thread → Except String (St × Thread)
  | [], st, t => .ok (st, t)
  | d :: ds, st, t =>
    match parse_message today st t d with
    | .error msg => .error msg
    | .ok (st2, t2) => msgsLoop today ds st2 t2

/-- Embeds `parse_thread_page` (lines 251 to 260). -/
def parse_thread_page (today : Date) (soup : Node) (st : St) (t : Thread) :
    Except String (St × Thread) :=
  msgsLoop today (soup.findAll "div" (some "post")) st t

/-- The descending page loop inside `parse_thread` (lines 244 to 248). -/
def threadPages (w : Web) (today : Date) (pre : String) :
    Nat → St → Thread → Except String St
  | 0, st, _ => .ok st
  | p + 1, st, t =>
    match parse_thread_page today (fetchPage w st (pageUrl pre (p + 1))).2
        (fetchPage w st (pageUrl pre (p + 1))).1 t with
    | .error msg => .error msg
    | .ok (st2, t2) => threadPages w today pre p st2 t2

/-- The fetch-and-paginate tail of `parse_thread` (lines 234 to 248): fetch
the thread page; a missing paging control means a single page, otherwise walk
the post pages from the highest number down to 1. -/
def parse_thread_pages (w : Web) (today : Date) (st : St) (href : String)
    (thread : Thread) : Except String St :=
  match get_page_link (fetchPage w st href).2 with
  | none =>
    match parse_thread_page today (fetchPage w st href).2 (fetchPage w st href).1 thread with
    | .error msg => .error msg
    | .ok (st2, _) => .ok st2
  | some pl =>
    match parse_page_link pl with
    | .error msg => .error msg
    | .ok (pre, page) => threadPages w today pre page (fetchPage w st href).1 thread

/-- Embeds `parse_thread` (lines 216 to 248). -/
def parse_thread (w : Web) (today : Date) (st : St) (room : Room) (e : Entry) :
    Except String St :=
  match e.h3.findTag "a" none with
  | none => .error "AssertionError: isinstance(a, Tag)"
  | some a =>
    let nm := pyReplace a.text "\n" " "
    match a.attr "href" with
    | none => .error "KeyError: href"
    | some href =>
      match st.db.threads.find? (fun t => t.name == nm && t.roomId == room.id) with
      | some t => parse_thread_pages w today st href t
      | none => parse_thread_pages w today st href ⟨none, nm, room.id, none⟩

/-- The per-entry dispatch of `parse_pages` (lines 200 to 209), with the exact
control flow of the source: a moved entry is logged and then still falls
through to `parse_thread`; a non-moved entry runs the freshness check and is
skipped (`continue`) when its advertised latest post already exists. -/
def processEntry (w : Web) (today : Date) (room : Room) (st : St) (e : Entry) :
    Except String St :=
  if isMoved e.h3 then
    parse_thread w today st room e
  else
    match get_latest_id e with
    | .error msg => .error msg
    | .ok mid =>
      if postExists st.db mid then .ok st
      else parse_thread w today st room e

/-- The entry loop of one listing page (lines 200 to 209). -/
def entriesLoop (w : Web) (today : Date) (room : Room) :
    List Entry → St → Except String St
  | [], st => .ok st
  | e :: es, st =>
    match processEntry w today room st e with
    | .error msg => .error msg
    | .ok st2 => entriesLoop w today room es st2

/-- Embeds `parse_pages` (lines 188 to 213): pages are visited from the
highest number down to 1, the room is saved after each page, and the
rate-limiting sleep (a pure delay) is a no-op here. -/
def parse_pages (w : Web) (today : Date) (room : Room) (pre : String) :
    Nat → St → Except String St
  | 0, st => .ok st
  | p + 1, st =>
    match entriesLoop w today room (entriesOf (fetchPage w st (pageUrl pre (p + 1))).2)
        (fetchPage w st (pageUrl pre (p + 1))).1 with
    | .error msg => .error msg
    | .ok st2 => parse_pages w today room pre p { st2 with db := saveRoom st2.db room }

/-- The fetch-and-paginate tail of `parse_room` (lines 178 to 185): fetch the
room listing; a missing paging control ends the walk, otherwise the thread
listing pages are visited. -/
def parse_room_pages (w : Web) (today : Date) (st : St) (href : String)
    (rr : DB × Room) : Except String St :=
  match get_page_link (fetchPage w { st with db := rr.1 } href).2 with
  | none => .ok (fetchPage w { st with db := rr.1 } href).1
  | some pl =>
    match parse_page_link pl with
    | .error msg => .error msg
    | .ok (pre, page) =>
      parse_pages w today rr.2 pre page (fetchPage w { st with db := rr.1 } href).1

/-- Embeds `parse_room` (lines 162 to 185). -/
def parse_room (w : Web) (today : Date) (st : St) (e : Entry) : Except String St :=
  match e.h3.findTag "a" none with
  | none => .error "AssertionError: isinstance(a, Tag)"
  | some a =>
    match a.attr "href" with
    | none => .error "KeyError: href"
    | some href => parse_room_pages w today st href (resolveRoom st.db a.text)

/-- The per-entry dispatch of `main` (lines 128 to 136): entries without a
link are skipped; the freshness check runs at room level and a stored latest
post id means nothing to do. -/
def mainEntryStep (w : Web) (today : Date) (st : St) (e : Entry) : Except String St :=
  match e.h3.findTag "a" none with
  | none => .ok st
  | some _ =>
    match get_latest_id e with
    | .error msg => .error msg
    | .ok mid =>
      if postExists st.db mid then .ok st
      else parse_room w today st e

/-- The entry loop of `main`. -/
def mainEntries (w : Web) (today : Date) : List Entry → St → Except String St
  | [], st => .ok st
  | e :: es, st =>
    match mainEntryStep w today st e with
    | .error msg => .error msg
    | .ok st2 => mainEntries w today es st2

/-- Embeds `main` (lines 122 to 136): fetch the forum root and walk its h3
entries. -/
def main (w : Web) (today : Date) (st : St) : Except String St :=
  mainEntries w today (entriesOf (fetchPage w st url).2) (fetchPage w st url).1

/-! ## Concrete fixtures for witnesses and counterexamples -/

def exToday : Date := ⟨2024, 3, 10⟩

def emptyDoc : Node := .tag "html" [] [] []

/-- Permalink of a post, in the URL shape both id extractors expect. -/
def postHref (pid : Nat) : String := url ++ "post/" ++ toString pid ++ "/#p" ++ toString pid

/-- A well-formed post div in the shape `parse_message` expects: the permalink
(whose text is the displayed timestamp) is the first link, then the byline,
the author info and the content. -/
def mkPostDiv (pid : Nat) (author date : String) (body : List Node)
    (first : Bool) : Node :=
  .tag "div" [] (if first then ["post", "firstpost"] else ["post"])
    [ .tag "h2" [] []
        [ .tag "span" [] ["post-link"]
            [ .tag "a" [("href", postHref pid)] [] [.nstring date] ] ],
      .tag "span" [] ["post-byline"]
        [ .nstring "By ", .tag "strong" [] [] [.nstring author] ],
      .tag "ul" [] ["author-info"] [ .tag "li" [] [] [.nstring "Member"] ],
      .tag "div" [] ["entry-content"] body ]

def exBodyContent : List Node :=
  [ .tag "p" [] [] [.nstring "Hello world"],
    .tag "div" [] ["postsignature"] [.nstring "my signature"] ]

def exDiv75 : Node := mkPostDiv 75 "alice" "2024-03-05T12:00:00" exBodyContent true

def exDiv76 : Node := mkPostDiv 76 "bob" "Yesterday 18:30:14" exBodyContent false

/-- A single-page thread document holding the two posts above. -/
def exThreadSoup : Node := .tag "html" [] [] [.tag "body" [] [] [exDiv75, exDiv76]]

/-- A listing-entry heading, optionally carrying the moved marker. -/
def mkH3 (title thref : String) (moved : Bool) : Node :=
  .tag "h3" [] []
    ((if moved then [.tag "em" [] ["moved"] [.nstring "Moved: "]] else [])
      ++ [.tag "a" [("href", thref)] [] [.nstring title]])

/-- A listing-entry container: the h3 sits two levels down, next to the
last-post summary, so the h3 grandparent is this container. -/
def mkContainer (h3 : Node) (lastId : Nat) : Node :=
  .tag "div" [] ["item"]
    [ .tag "div" [] [] [h3],
      .tag "ul" [] []
        [ .tag "li" [] ["info-lastpost"]
            [ .tag "a" [("href", postHref lastId)] [] [.nstring "Last post"] ] ] ]

def mkEntry (title thref : String) (lastId : Nat) (moved : Bool) : Entry :=
  ⟨mkH3 title thref moved, mkContainer (mkH3 title thref moved) lastId⟩

def exDT : DateTime := ⟨⟨2024, 3, 1⟩, ⟨8, 0, 0⟩⟩

def mkPost (pid : Nat) : Post := ⟨pid, exDT, "old body", postHref pid, 1, 1⟩

def exRoom : Room := ⟨1, "Chat"⟩

def exUserOld : User := ⟨1, "carol", none⟩

def exThreadOld : Thread := ⟨some 1, "Old thread", 1, some 1⟩

/-- A pending thread, as `parse_thread` builds for a never-seen name. -/
def exThreadNew : Thread := ⟨none, "My Thread", 1, none⟩

def exDb40 : DB := ⟨[exUserOld], [exRoom], [exThreadOld], [mkPost 40]⟩

def exSt40 : St := ⟨exDb40, []⟩

def exDb75 : DB := ⟨[exUserOld], [exRoom], [exThreadOld], [mkPost 75]⟩

def exSt75 : St := ⟨exDb75, []⟩

def exDbEmpty : DB := ⟨[], [exRoom], [], []⟩

def exStEmpty : St := ⟨exDbEmpty, []⟩

def exThref : String := url ++ "topic/9/my-thread/"

def exMovedHref : String := url ++ "topic/5/moved-thread/"

def exNewRoomHref : String := url ++ "forum/7/new-room/"

def exEntry40 : Entry := mkEntry "Quiet thread" exThref 40 false

def exEntry77 : Entry := mkEntry "My Thread" exThref 77 false

def exMovedEntry : Entry := mkEntry "Moved thread" exMovedHref 40 true

/-- A web that serves the single-page thread document for the example thread
and an empty document elsewhere. -/
def exWeb : Web := ⟨fun u => if u == exThref then exThreadSoup else emptyDoc⟩

/-- A web serving only empty documents. -/
def exEmptyWeb : Web := ⟨fun _ => emptyDoc⟩

/-- A root listing with one room entry named NewRoom whose advertised latest
post id is 40. -/
def exRootSoup : Node :=
  .tag "html" [] [] [mkContainer (mkH3 "NewRoom" exNewRoomHref false) 40]

def exWebRoot : Web := ⟨fun u => if u == url then exRootSoup else emptyDoc⟩

def exRootEntry : Entry := mkEntry "NewRoom" exNewRoomHref 40 false

def exDbPost40 : DB := ⟨[], [], [], [mkPost 40]⟩

def exStPost40 : St := ⟨exDbPost40, []⟩

/-- A listing entry whose container has no last-post summary element. -/
def exBadEntry1 : Entry :=
  ⟨mkH3 "B1" exThref false, .tag "div" [] ["item"] [.tag "div" [] [] [mkH3 "B1" exThref false]]⟩

/-- A listing entry whose last-post summary element has no link inside. -/
def exBadEntry2 : Entry :=
  ⟨mkH3 "B2" exThref false,
    .tag "div" [] ["item"]
      [ .tag "div" [] [] [mkH3 "B2" exThref false],
        .tag "ul" [] [] [.tag "li" [] ["info-lastpost"] [.nstring "no link"]] ]⟩

/-- Content whose first div in document order is nested inside a paragraph,
not a direct child. -/
def exNestedContent : Node :=
  .tag "div" [] ["entry-content"]
    [ .tag "p" [] []
        [ .nstring "Hello", .tag "div" [] ["postsignature"] [.nstring "SIG"] ] ]

/-- The state after ingesting the first example post into the empty store. -/
def exStAfter75 : St :=
  ⟨⟨[⟨1, "alice", none⟩], [exRoom], [⟨some 1, "My Thread", 1, some 1⟩],
    [⟨75, ⟨⟨2024, 3, 5⟩, ⟨12, 0, 0⟩⟩, "Hello world", postHref 75, 1, 1⟩]⟩, []⟩

def exThreadSaved : Thread := ⟨some 1, "My Thread", 1, some 1⟩

/-- The state after ingesting the whole example thread page into the empty
store. -/
def exStFull : St :=
  ⟨⟨[⟨1, "alice", none⟩, ⟨2, "bob", none⟩], [exRoom], [exThreadSaved],
    [⟨75, ⟨⟨2024, 3, 5⟩, ⟨12, 0, 0⟩⟩, "Hello world", postHref 75, 1, 1⟩,
     ⟨76, ⟨⟨2024, 3, 9⟩, ⟨18, 30, 14⟩⟩, "Hello world", postHref 76, 2, 1⟩]⟩, []⟩

/-- The state `parse_room` reaches from the empty store on the NewRoom entry:
the room is created, its page fetched, and the missing paging control ends the
walk. -/
def exStNewRoom : St := ⟨⟨[], [⟨1, "NewRoom"⟩], [], []⟩, [exNewRoomHref]⟩

/-- A fully empty starting state. -/
def exStNoRooms : St := ⟨⟨[], [], [], []⟩, []⟩

/-- The store after the Identity Resolver creates alice in the empty store. -/
def exDbAlice : DB := ⟨[⟨1, "alice", none⟩], [exRoom], [], []⟩

/-! ## Helper lemmas -/

theorem filterMap_ext {α β : Type} (f g : α → Option β) (l : List α)
    (h : ∀ a, f a = g a) : l.filterMap f = l.filterMap g := by
  rw [funext h]

theorem saveThread_db (db : DB) (t : Thread) :
    (saveThread db t).1.rooms = db.rooms ∧ (saveThread db t).1.posts = db.posts ∧
    (saveThread db t).1.users = db.users ∧ (saveThread db t).2.userId = t.userId := by
  rcases ht : t.id with _ | i <;> simp [saveThread, ht]

theorem maybeStarter_db (db : DB) (t : Thread) (u : User) (div : Node) :
    (maybeStarter db t u div).1.rooms = db.rooms ∧
    (maybeStarter db t u div).1.posts = db.posts ∧
    (maybeStarter db t u div).1.users = db.users := by
  unfold maybeStarter
  split
  · exact ⟨(saveThread_db _ _).1, (saveThread_db _ _).2.1, (saveThread_db _ _).2.2.1⟩
  · exact ⟨rfl, rfl, rfl⟩

theorem maybeStarter_userId (db : DB) (t : Thread) (u : User) (div : Node)
    (hc : div.classes.contains "firstpost" = true) :
    (maybeStarter db t u div).2.userId = some u.id := by
  unfold maybeStarter
  split
  · exact (saveThread_db db { t with userId := some u.id }).2.2.2
  · next h => exact absurd hc h

theorem resolveUser_spec (today : Date) (db : DB) (div : Node) (un : String)
    (db2 : DB) (u : User) (h : resolveUser today db div un = .ok (db2, u)) :
    db2.rooms = db.rooms ∧ db2.posts = db.posts ∧ db2.threads = db.threads ∧
    u.name = un ∧ u ∈ db2.users ∧
    (db2.users = db.users ∨
      (db2.users = db.users ++ [u] ∧ ∀ x ∈ db.users, x.name ≠ un)) := by
  unfold resolveUser at h
  cases hf : db.users.find? (fun v => v.name == un) with
  | some u0 =>
    simp only [hf] at h
    cases h
    refine ⟨rfl, rfl, rfl, ?_, List.mem_of_find?_eq_some hf, Or.inl rfl⟩
    have := List.find?_some hf
    exact eq_of_beq this
  | none =>
    simp only [hf] at h
    have hnone : ∀ x ∈ db.users, x.name ≠ un := by
      intro x hx
      have := List.find?_eq_none.mp hf x hx
      simpa using this
    cases h1 : div.findTag "ul" (some "author-info") with
    | none => simp only [h1] at h; exact Except.noConfusion h
    | some ul =>
      simp only [h1] at h
      cases h2 : ul.findPred
          (fun t => t.tagName == "span" && strStartsWith t.text "Registered:") with
      | none =>
        simp only [h2] at h
        cases h
        exact ⟨rfl, rfl, rfl, rfl, by simp, Or.inr ⟨rfl, hnone⟩⟩
      | some sp =>
        simp only [h2] at h
        cases h3 : sp.findTag "strong" none with
        | none => simp only [h3] at h; exact Except.noConfusion h
        | some strong =>
          simp only [h3] at h
          cases h4 : parse_datetime today strong.text with
          | error m => simp only [h4] at h; exact Except.noConfusion h
          | ok dt =>
            simp only [h4] at h
            cases h
            exact ⟨rfl, rfl, rfl, rfl, by simp, Or.inr ⟨rfl, hnone⟩⟩

theorem resolveRoom_spec (db : DB) (nm : String) :
    (resolveRoom db nm).1.users = db.users ∧ (resolveRoom db nm).1.posts = db.posts ∧
    (resolveRoom db nm).1.threads = db.threads ∧
    (resolveRoom db nm).2.name = nm ∧
    (resolveRoom db nm).2 ∈ (resolveRoom db nm).1.rooms ∧
    ((resolveRoom db nm).1.rooms = db.rooms ∨
      ((resolveRoom db nm).1.rooms = db.rooms ++ [(resolveRoom db nm).2] ∧
        ∀ x ∈ db.rooms, x.name ≠ nm)) := by
  cases hf : db.rooms.find? (fun r => r.name == nm) with
  | some r =>
    have hr : resolveRoom db nm = (db, r) := by unfold resolveRoom; rw [hf]
    have hb : (r.name == nm) = true := by simpa using List.find?_some hf
    rw [hr]
    exact ⟨rfl, rfl, rfl, eq_of_beq hb, List.mem_of_find?_eq_some hf, Or.inl rfl⟩
  | none =>
    have hnone : ∀ x ∈ db.rooms, x.name ≠ nm := by
      intro x hx
      have := List.find?_eq_none.mp hf x hx
      simpa using this
    have hr : resolveRoom db nm =
        ({ db with rooms := db.rooms ++ [⟨freshRoomId db, nm⟩] }, ⟨freshRoomId db, nm⟩) := by
      unfold resolveRoom; rw [hf]
    rw [hr]
    exact ⟨rfl, rfl, rfl, rfl, by simp, Or.inr ⟨rfl, hnone⟩⟩

/-! ## The signature path against the spec description of the signature -/

theorem divPathList_isSome (i : Nat) (cs : List Node) :
    (divPathList i cs).isSome = containsDivList cs := by
  refine divPathList.induct
    (fun n => (divPathNode n).isSome = containsDivNode n)
    (fun _ cs => ∀ j, (divPathList j cs).isSome = containsDivList cs)
    ?_ ?_ ?_ ?_ ?_ ?_ i cs i
  · intro s; rfl
  · intro nm attrs classes ch h
    unfold divPathNode containsDivNode
    rw [if_pos h, h]
    rfl
  · intro nm attrs classes ch h ih
    unfold divPathNode containsDivNode
    rw [if_neg h]
    simp only [Bool.not_eq_true] at h
    rw [h, Bool.false_or]
    exact ih 0
  · intro x j; rfl
  · intro k c cs2 p hc ih j
    unfold divPathList containsDivList
    rw [hc, ← ih, hc]
    rfl
  · intro k c cs2 hc ih1 ih2 j
    unfold divPathList containsDivList
    rw [hc, ← ih1, hc]
    exact ih2 (j + 1)

theorem divPathList_ne_nil (cs : List Node) :
    ∀ i q, divPathList i cs = some q → q ≠ [] := by
  induction cs with
  | nil => intro i q h; exact absurd h (by simp [divPathList])
  | cons c cs2 ih =>
    intro i q h
    unfold divPathList at h
    cases hc : divPathNode c with
    | some p =>
      rw [hc] at h
      cases h
      simp
    | none =>
      rw [hc] at h
      exact ih (i + 1) q h

theorem specSigIndex_divPath (cs : List Node) :
    ∀ i, specSigIndex i cs =
      (match divPathList i cs with
        | some [j] => some j
        | _ => none) := by
  induction cs with
  | nil => intro i; rfl
  | cons c cs2 ih =>
    intro i
    cases c with
    | nstring s =>
      show specSigIndex (i + 1) cs2 = _
      rw [ih (i + 1)]
      rfl
    | tag t attrs classes ch =>
      by_cases ht : (t == "div") = true
      · show (if t == "div" then some i else _) = _
        rw [if_pos ht]
        have : divPathList i (Node.tag t attrs classes ch :: cs2) = some [i] := by
          unfold divPathList divPathNode
          rw [if_pos ht]
        rw [this]
      · show (if t == "div" then some i else if containsDivList ch then none else _) = _
        rw [if_neg ht]
        have hnode : divPathNode (Node.tag t attrs classes ch) = divPathList 0 ch := by
          unfold divPathNode
          rw [if_neg ht]
        cases hin : divPathList 0 ch with
        | some p =>
          have hcontains : containsDivList ch = true := by
            rw [← divPathList_isSome 0 ch, hin]; rfl
          rw [if_pos hcontains]
          have hstep : divPathList i (Node.tag t attrs classes ch :: cs2) = some (i :: p) := by
            unfold divPathList
            rw [hnode, hin]
          rw [hstep]
          cases p with
          | nil => exact absurd hin (fun hh => divPathList_ne_nil ch 0 [] hh rfl)
          | cons q qs => rfl
        | none =>
          have hcontains : containsDivList ch = false := by
            rw [← divPathList_isSome 0 ch, hin]; rfl
          rw [if_neg (by rw [hcontains]; exact Bool.false_ne_true)]
          have hstep : divPathList i (Node.tag t attrs classes ch :: cs2) =
              divPathList (i + 1) cs2 := by
            conv_lhs => unfold divPathList
            rw [hnode, hin]
          rw [hstep]
          exact ih (i + 1)

/-- C6 (amended): normalization iterates the direct children of the content
element in document order, skips pure-text children, skips the single child
that is itself the first block-level (div) element found inside the content in
document order (when the first such element sits deeper than a direct child no
child is skipped and its text stays in the body), converts each remaining
child and joins the results with exactly one blank-line separator and no
trailing separator: the source loop `buildBody` coincides with the
normalization `spec_normalize` written from those words. -/
theorem c6_amended_normalization (content : Node) :
    buildBody content = spec_normalize content := by
  cases content with
  | nstring s => rfl
  | tag t attrs classes ch =>
    have hsig2 : ∀ j : Nat,
        (divPathIn (Node.tag t attrs classes ch) == some [j])
          = (specSigIndex 0 ch == some j) := by
      intro j
      have h1 : divPathIn (Node.tag t attrs classes ch) = divPathList 0 ch := rfl
      rw [h1, specSigIndex_divPath ch 0]
      cases hd : divPathList 0 ch with
      | none => rfl
      | some p =>
        cases p with
        | nil => exact absurd rfl (divPathList_ne_nil ch 0 [] hd)
        | cons q qs =>
          cases qs with
          | nil =>
            by_cases hqj : q = j
            · subst hqj
              rw [beq_self_eq_true, beq_self_eq_true]
            · rw [beq_eq_false_iff_ne.mpr (by simp [hqj]),
                beq_eq_false_iff_ne.mpr (by simp [hqj])]
          | cons r rs =>
            rw [beq_eq_false_iff_ne.mpr (by simp)]
            rfl
    unfold buildBody spec_normalize
    simp only [Node.children, hsig2]

/-! ## Behaviour of one message ingestion -/

theorem savePost_spec (st : St) (db : DB) (thread : Thread) (user : User) (n : Nat)
    (posted : DateTime) (body href : String) :
    (savePost st db thread user n posted body href).1.db.posts
        = db.posts ++ [⟨n, posted, body, href, user.id,
            (saveThread db thread).2.id.getD 0⟩]
    ∧ (savePost st db thread user n posted body href).1.db.rooms = db.rooms
    ∧ (savePost st db thread user n posted body href).1.fetched = st.fetched
    ∧ (savePost st db thread user n posted body href).2.userId = thread.userId := by
  refine ⟨?_, ?_, rfl, (saveThread_db db thread).2.2.2⟩
  · show (saveThread db thread).1.posts ++ [_] = db.posts ++ [_]
    rw [(saveThread_db db thread).2.1]
  · show (saveThread db thread).1.rooms = db.rooms
    exact (saveThread_db db thread).1

theorem parse_message_skip (today : Date) (st : St) (thread : Thread) (div : Node)
    (h : msgSkipped st.db div = true) :
    parse_message today st thread div = .ok (st, thread) := by
  cases hh : getFirstHref div with
  | error m =>
    unfold msgSkipped at h
    simp only [hh] at h
    exact Bool.noConfusion h
  | ok href =>
    unfold msgSkipped at h
    simp only [hh] at h
    unfold parse_message
    simp only [hh, h, if_true]

theorem parse_message_body_spec (today : Date) (st : St) (thread : Thread) (div : Node)
    (href pid : String) (st2 : St) (t2 : Thread)
    (h : parse_message_body today st thread div href pid = .ok (st2, t2)) :
    (∃ p : Post, st2.db.posts = st.db.posts ++ [p] ∧ parseNatQ pid = some p.id)
    ∧ st2.db.rooms = st.db.rooms
    ∧ st2.fetched = st.fetched
    ∧ (div.classes.contains "firstpost" = true →
        ∃ un dbu u, getUsername div = .ok un ∧
          resolveUser today st.db div un = .ok (dbu, u) ∧ t2.userId = some u.id) := by
  unfold parse_message_body at h
  cases h1 : getUsername div with
  | error m => simp only [h1] at h; exact Except.noConfusion h
  | ok username =>
    simp only [h1] at h
    cases h2 : resolveUser today st.db div username with
    | error m => simp only [h2] at h; exact Except.noConfusion h
    | ok p2 =>
      obtain ⟨db1, user⟩ := p2
      simp only [h2] at h
      obtain ⟨hru_rooms, hru_posts, hru_threads, hu_name, hu_mem, hu_or⟩ :=
        resolveUser_spec today st.db div username db1 user h2
      cases h3 : div.findTag "div" (some "entry-content") with
      | none => simp only [h3] at h; exact Except.noConfusion h
      | some content =>
        simp only [h3] at h
        cases h4 : div.findTag "span" (some "post-link") with
        | none => simp only [h4] at h; exact Except.noConfusion h
        | some linkSpan =>
          simp only [h4] at h
          cases h5 : parse_datetime today linkSpan.text with
          | error m => simp only [h5] at h; exact Except.noConfusion h
          | ok posted =>
            simp only [h5] at h
            cases h6 : parseNatQ pid with
            | none => simp only [h6] at h; exact Except.noConfusion h
            | some n =>
              simp only [h6] at h
              have hinj := Except.ok.inj h
              have hst2 : (savePost st (maybeStarter db1 thread user div).1
                  (maybeStarter db1 thread user div).2 user n posted
                  (buildBody content) href).1 = st2 := congrArg Prod.fst hinj
              have ht2 : (savePost st (maybeStarter db1 thread user div).1
                  (maybeStarter db1 thread user div).2 user n posted
                  (buildBody content) href).2 = t2 := congrArg Prod.snd hinj
              obtain ⟨hsp_posts, hsp_rooms, hsp_fetched, hsp_uid⟩ :=
                savePost_spec st (maybeStarter db1 thread user div).1
                  (maybeStarter db1 thread user div).2 user n posted
                  (buildBody content) href
              rw [← hst2]
              refine ⟨⟨⟨n, posted, buildBody content, href, user.id,
                  (saveThread (maybeStarter db1 thread user div).1
                    (maybeStarter db1 thread user div).2).2.id.getD 0⟩, ?_, rfl⟩,
                ?_, hsp_fetched, ?_⟩
              · rw [hsp_posts, (maybeStarter_db db1 thread user div).2.1, hru_posts]
              · rw [hsp_rooms, (maybeStarter_db db1 thread user div).1, hru_rooms]
              · intro hc
                refine ⟨username, db1, user, rfl, h2, ?_⟩
                rw [← ht2, hsp_uid]
                exact maybeStarter_userId db1 thread user div hc

theorem parse_message_cases (today : Date) (st : St) (thread : Thread) (div : Node)
    (st2 : St) (t2 : Thread)
    (h : parse_message today st thread div = .ok (st2, t2)) :
    (msgSkipped st.db div = true ∧ st2 = st ∧ t2 = thread)
    ∨ (msgSkipped st.db div = false ∧
        ∃ href p, getFirstHref div = .ok href ∧
          st2.db.posts = st.db.posts ++ [p] ∧
          strMatchesId (extractPostId href) p.id = true ∧
          st2.db.rooms = st.db.rooms ∧ st2.fetched = st.fetched ∧
          (div.classes.contains "firstpost" = true →
            ∃ un dbu u, getUsername div = .ok un ∧
              resolveUser today st.db div un = .ok (dbu, u) ∧ t2.userId = some u.id)) := by
  unfold parse_message at h
  cases hh : getFirstHref div with
  | error m => simp only [hh] at h; exact Except.noConfusion h
  | ok href =>
    simp only [hh] at h
    have hskip : msgSkipped st.db div
        = st.db.posts.any (fun p => strMatchesId (extractPostId href) p.id) := by
      unfold msgSkipped; rw [hh]
    split at h
    · next hcond =>
      have hp := Except.ok.inj h
      left
      exact ⟨by rw [hskip, hcond], (congrArg Prod.fst hp).symm, (congrArg Prod.snd hp).symm⟩
    · next hcond =>
      have hcond2 : st.db.posts.any (fun p => strMatchesId (extractPostId href) p.id)
          = false := by simpa using hcond
      obtain ⟨⟨p, hposts, hpid⟩, hrooms, hfetched, hstarter⟩ :=
        parse_message_body_spec today st thread div href (extractPostId href) st2 t2 h
      right
      refine ⟨by rw [hskip]; exact hcond2, href, p, rfl, hposts, ?_, hrooms, hfetched, hstarter⟩
      unfold strMatchesId
      rw [hpid]
      exact beq_self_eq_true p.id

theorem msgSkipped_mono (db db2 : DB) (div : Node)
    (h : msgSkipped db div = true) (hsub : ∀ q ∈ db.posts, q ∈ db2.posts) :
    msgSkipped db2 div = true := by
  unfold msgSkipped at h ⊢
  cases hh : getFirstHref div with
  | error m => simp only [hh] at h; exact Bool.noConfusion h
  | ok href =>
    simp only [hh] at h ⊢
    obtain ⟨p, hp, hmatch⟩ := List.any_eq_true.mp h
    exact List.any_eq_true.mpr ⟨p, hsub p hp, hmatch⟩

theorem parse_message_mono (today : Date) (st : St) (thread : Thread) (div : Node)
    (st2 : St) (t2 : Thread)
    (h : parse_message today st thread div = .ok (st2, t2)) :
    (∀ q ∈ st.db.posts, q ∈ st2.db.posts) ∧ msgSkipped st2.db div = true ∧
    st2.db.rooms = st.db.rooms ∧ st2.fetched = st.fetched := by
  rcases parse_message_cases today st thread div st2 t2 h with
    ⟨hs, rfl, rfl⟩ | ⟨hs, href, p, hh, hposts, hm, hrooms, hfetched, _⟩
  · exact ⟨fun q hq => hq, hs, rfl, rfl⟩
  · refine ⟨fun q hq => by rw [hposts]; exact List.mem_append_left _ hq, ?_, hrooms, hfetched⟩
    unfold msgSkipped
    rw [hh]
    exact List.any_eq_true.mpr ⟨p, by rw [hposts]; exact List.mem_append_right _ (by simp), hm⟩

theorem msgsLoop_done (today : Date) (ds : List Node) (st : St) (t : Thread)
    (h : ∀ d ∈ ds, msgSkipped st.db d = true) :
    msgsLoop today ds st t = .ok (st, t) := by
  induction ds with
  | nil => rfl
  | cons d ds2 ih =>
    unfold msgsLoop
    rw [parse_message_skip today st t d (h d (by simp))]
    exact ih (fun d2 hd2 => h d2 (by simp [hd2]))

theorem msgsLoop_spec (today : Date) (ds : List Node) :
    ∀ (st : St) (t : Thread) (st2 : St) (t2 : Thread),
      msgsLoop today ds st t = .ok (st2, t2) →
      (∀ q ∈ st.db.posts, q ∈ st2.db.posts) ∧ (∀ d ∈ ds, msgSkipped st2.db d = true) ∧
      st2.db.rooms = st.db.rooms ∧ st2.fetched = st.fetched := by
  induction ds with
  | nil =>
    intro st t st2 t2 h
    cases h
    exact ⟨fun q hq => hq, by simp, rfl, rfl⟩
  | cons d ds2 ih =>
    intro st t st2 t2 h
    unfold msgsLoop at h
    cases hm : parse_message today st t d with
    | error m => simp only [hm] at h; exact Except.noConfusion h
    | ok q =>
      obtain ⟨stMid, tMid⟩ := q
      simp only [hm] at h
      obtain ⟨hmono1, hdone1, hrooms1, hfetched1⟩ :=
        parse_message_mono today st t d stMid tMid hm
      obtain ⟨hmono2, hdone2, hrooms2, hfetched2⟩ := ih stMid tMid st2 t2 h
      refine ⟨fun q hq => hmono2 q (hmono1 q hq), ?_,
        hrooms2.trans hrooms1, hfetched2.trans hfetched1⟩
      intro d2 hd2
      rcases List.mem_cons.mp hd2 with rfl | hd2
      · exact msgSkipped_mono stMid.db st2.db d2 hdone1 hmono2
      · exact hdone2 d2 hd2

theorem parse_thread_page_spec (today : Date) (soup : Node) (st : St) (t : Thread)
    (st2 : St) (t2 : Thread) (h : parse_thread_page today soup st t = .ok (st2, t2)) :
    (∀ q ∈ st.db.posts, q ∈ st2.db.posts) ∧ st2.db.rooms = st.db.rooms ∧
    st2.fetched = st.fetched := by
  unfold parse_thread_page at h
  obtain ⟨h1, _, h3, h4⟩ := msgsLoop_spec today _ st t st2 t2 h
  exact ⟨h1, h3, h4⟩

theorem parse_thread_page_idem (today : Date) (soup : Node) (st : St) (t : Thread)
    (st2 : St) (t2 : Thread) (h : parse_thread_page today soup st t = .ok (st2, t2)) :
    parse_thread_page today soup st2 t2 = .ok (st2, t2) := by
  unfold parse_thread_page at h ⊢
  exact msgsLoop_done today _ st2 t2 (msgsLoop_spec today _ st t st2 t2 h).2.1

/-! ## The room list is untouched below room level -/

theorem threadPages_rooms (w : Web) (today : Date) (pre : String) :
    ∀ (p : Nat) (st : St) (t : Thread) (st2 : St),
      threadPages w today pre p st t = .ok st2 → st2.db.rooms = st.db.rooms := by
  intro p
  induction p with
  | zero =>
    intro st t st2 h
    cases h
    rfl
  | succ p ih =>
    intro st t st2 h
    unfold threadPages at h
    cases hm : parse_thread_page today (fetchPage w st (pageUrl pre (p + 1))).2
        (fetchPage w st (pageUrl pre (p + 1))).1 t with
    | error m => simp only [hm] at h; exact Except.noConfusion h
    | ok q =>
      obtain ⟨stMid, tMid⟩ := q
      simp only [hm] at h
      rw [ih stMid tMid st2 h, (parse_thread_page_spec today _ _ t stMid tMid hm).2.1]
      rfl

theorem parse_thread_pages_rooms (w : Web) (today : Date) (st : St) (href : String)
    (t : Thread) (st2 : St) (h : parse_thread_pages w today st href t = .ok st2) :
    st2.db.rooms = st.db.rooms := by
  unfold parse_thread_pages at h
  cases hp : get_page_link (fetchPage w st href).2 with
  | none =>
    simp only [hp] at h
    cases hm : parse_thread_page today (fetchPage w st href).2 (fetchPage w st href).1 t with
    | error m => simp only [hm] at h; exact Except.noConfusion h
    | ok q =>
      obtain ⟨stMid, tMid⟩ := q
      simp only [hm] at h
      cases h
      exact (parse_thread_page_spec today _ _ t _ tMid hm).2.1
  | some pl =>
    simp only [hp] at h
    cases hl : parse_page_link pl with
    | error m => simp only [hl] at h; exact Except.noConfusion h
    | ok pr =>
      obtain ⟨pre, page⟩ := pr
      simp only [hl] at h
      exact threadPages_rooms w today pre page (fetchPage w st href).1 t st2 h

theorem parse_thread_rooms (w : Web) (today : Date) (st : St) (room : Room) (e : Entry)
    (st2 : St) (h : parse_thread w today st room e = .ok st2) :
    st2.db.rooms = st.db.rooms := by
  unfold parse_thread at h
  cases h1 : e.h3.findTag "a" none with
  | none => simp only [h1] at h; exact Except.noConfusion h
  | some a =>
    simp only [h1] at h
    cases h2 : a.attr "href" with
    | none => simp only [h2] at h; exact Except.noConfusion h
    | some href =>
      simp only [h2] at h
      cases h3 : st.db.threads.find? (fun t =>
          t.name == pyReplace a.text "\n" " " && t.roomId == room.id) with
      | some t =>
        simp only [h3] at h
        exact parse_thread_pages_rooms w today st href t st2 h
      | none =>
        simp only [h3] at h
        exact parse_thread_pages_rooms w today st href _ st2 h

theorem processEntry_rooms (w : Web) (today : Date) (room : Room) (st : St) (e : Entry)
    (st2 : St) (h : processEntry w today room st e = .ok st2) :
    st2.db.rooms = st.db.rooms := by
  unfold processEntry at h
  split at h
  · exact parse_thread_rooms w today st room e st2 h
  · cases hg : get_latest_id e with
    | error m => simp only [hg] at h; exact Except.noConfusion h
    | ok mid =>
      simp only [hg] at h
      split at h
      · cases h; rfl
      · exact parse_thread_rooms w today st room e st2 h

theorem entriesLoop_rooms (w : Web) (today : Date) (room : Room) :
    ∀ (es : List Entry) (st : St) (st2 : St),
      entriesLoop w today room es st = .ok st2 → st2.db.rooms = st.db.rooms := by
  intro es
  induction es with
  | nil => intro st st2 h; cases h; rfl
  | cons e es2 ih =>
    intro st st2 h
    unfold entriesLoop at h
    cases hp : processEntry w today room st e with
    | error m => simp only [hp] at h; exact Except.noConfusion h
    | ok stMid =>
      simp only [hp] at h
      rw [ih stMid st2 h]
      exact processEntry_rooms w today room st e stMid hp

theorem entriesLoop_error (w : Web) (today : Date) (room : Room) (e : Entry)
    (es : List Entry) (st : St) (msg : String)
    (h : processEntry w today room st e = .error msg) :
    entriesLoop w today room (e :: es) st = .error msg := by
  unfold entriesLoop
  rw [h]

theorem saveRoom_mem (db : DB) (r : Room) : r ∈ (saveRoom db r).rooms := by
  unfold saveRoom
  split
  · next hany =>
    obtain ⟨x, hx, hxe⟩ := List.any_eq_true.mp hany
    exact List.mem_map.mpr ⟨x, hx, by rw [if_pos hxe]⟩
  · exact List.mem_append_right _ (by simp)

theorem parse_pages_mem (w : Web) (today : Date) (room : Room) (pre : String) :
    ∀ (p : Nat) (st : St) (st2 : St), room ∈ st.db.rooms →
      parse_pages w today room pre p st = .ok st2 → room ∈ st2.db.rooms := by
  intro p
  induction p with
  | zero => intro st st2 hmem h; cases h; exact hmem
  | succ p ih =>
    intro st st2 hmem h
    unfold parse_pages at h
    cases he : entriesLoop w today room
        (entriesOf (fetchPage w st (pageUrl pre (p + 1))).2)
        (fetchPage w st (pageUrl pre (p + 1))).1 with
    | error m => simp only [he] at h; exact Except.noConfusion h
    | ok stMid =>
      simp only [he] at h
      exact ih _ st2 (saveRoom_mem stMid.db room) h

theorem parse_room_pages_mem (w : Web) (today : Date) (st : St) (href : String)
    (rr : DB × Room) (st2 : St) (hmem : rr.2 ∈ rr.1.rooms)
    (h : parse_room_pages w today st href rr = .ok st2) : rr.2 ∈ st2.db.rooms := by
  unfold parse_room_pages at h
  cases hp : get_page_link (fetchPage w { st with db := rr.1 } href).2 with
  | none =>
    simp only [hp] at h
    cases h
    exact hmem
  | some pl =>
    simp only [hp] at h
    cases hl : parse_page_link pl with
    | error m => simp only [hl] at h; exact Except.noConfusion h
    | ok pr =>
      obtain ⟨pre, page⟩ := pr
      simp only [hl] at h
      exact parse_pages_mem w today rr.2 pre page _ st2 hmem h

theorem parse_room_creates (w : Web) (today : Date) (st : St) (e : Entry) (st2 : St)
    (a : Node) (ha : e.h3.findTag "a" none = some a)
    (h : parse_room w today st e = .ok st2) :
    ∃ r, r ∈ st2.db.rooms ∧ r.name = a.text := by
  unfold parse_room at h
  simp only [ha] at h
  cases h2 : a.attr "href" with
  | none => simp only [h2] at h; exact Except.noConfusion h
  | some href =>
    simp only [h2] at h
    obtain ⟨_, _, _, hname, hmem, _⟩ := resolveRoom_spec st.db a.text
    exact ⟨(resolveRoom st.db a.text).2,
      parse_room_pages_mem w today st href (resolveRoom st.db a.text) st2 hmem h, hname⟩

theorem processEntry_error (w : Web) (today : Date) (room : Room) (st : St) (e : Entry)
    (msg : String) (hmoved : isMoved e.h3 = false) (hg : get_latest_id e = .error msg) :
    processEntry w today room st e = .error msg := by
  unfold processEntry
  rw [if_neg (by rw [hmoved]; exact Bool.false_ne_true), hg]

theorem nodup_snoc {α : Type} (l : List α) (a : α) (hl : l.Nodup) (ha : a ∉ l) :
    (l ++ [a]).Nodup := by
  simp [List.nodup_append, hl, ha]

/-! ## The claims -/

/-- C1: for a thread entry on a room listing page that is not marked moved,
the scheduler reads the advertised latest post id through `get_latest_id`
(which takes no `Web`, so it fetches nothing); when a Post with that id is
already stored the thread is skipped entirely with the crawl state unchanged
(no fetch logged, no repository write), and otherwise processing equals a
descent into the thread via `parse_thread`. -/
theorem c1_listing_freshness_gate (w : Web) (today : Date) (room : Room) (st : St)
    (e : Entry) (mid : Nat) (hmoved : isMoved e.h3 = false)
    (hgli : get_latest_id e = .ok mid) :
    (postExists st.db mid = true → processEntry w today room st e = .ok st)
    ∧ (postExists st.db mid = false →
        processEntry w today room st e = parse_thread w today st room e) := by
  constructor
  · intro hex
    unfold processEntry
    rw [if_neg (by rw [hmoved]; exact Bool.false_ne_true)]
    simp [hgli, hex]
  · intro hex
    unfold processEntry
    rw [if_neg (by rw [hmoved]; exact Bool.false_ne_true)]
    simp [hgli, hex]

/-- Witness for C1 at concrete inputs: an entry advertising the stored post 40
is skipped with the state unchanged, and an entry advertising the unknown post
77 is dispatched to `parse_thread`. -/
theorem c1_witness :
    processEntry exWeb exToday exRoom exSt40 exEntry40 = .ok exSt40
    ∧ processEntry exWeb exToday exRoom exSt40 exEntry77
        = parse_thread exWeb exToday exSt40 exRoom exEntry77 :=
  ⟨(c1_listing_freshness_gate exWeb exToday exRoom exSt40 exEntry40 40 rfl rfl).1 rfl,
   (c1_listing_freshness_gate exWeb exToday exRoom exSt40 exEntry77 77 rfl rfl).2 rfl⟩

/-- C2: a post fragment whose id is already stored is skipped with no
repository change and the page loop continues; a fragment with a new id
inserts exactly one Post whose id matches the fragment, flipping the existence
check from false to true; and re-running a whole page of ingestion over the
same source is the identity on the repository. -/
theorem c2_post_ingestion_idempotent (today : Date) :
    (∀ (st : St) (thread : Thread) (div : Node), msgSkipped st.db div = true →
        parse_message today st thread div = .ok (st, thread))
    ∧ (∀ (st : St) (thread : Thread) (div : Node) (st2 : St) (t2 : Thread),
        msgSkipped st.db div = false →
        parse_message today st thread div = .ok (st2, t2) →
        ∃ href p, getFirstHref div = .ok href ∧
          st2.db.posts = st.db.posts ++ [p] ∧
          strMatchesId (extractPostId href) p.id = true ∧
          msgSkipped st2.db div = true)
    ∧ (∀ (soup : Node) (st : St) (thread : Thread) (st2 : St) (t2 : Thread),
        parse_thread_page today soup st thread = .ok (st2, t2) →
        parse_thread_page today soup st2 t2 = .ok (st2, t2)) := by
  refine ⟨fun st thread div h => parse_message_skip today st thread div h, ?_,
    fun soup st thread st2 t2 h => parse_thread_page_idem today soup st thread st2 t2 h⟩
  intro st thread div st2 t2 hs h
  rcases parse_message_cases today st thread div st2 t2 h with
    ⟨hs2, _, _⟩ | ⟨_, href, p, hh, hposts, hm, _, _, _⟩
  · rw [hs] at hs2; exact Bool.noConfusion hs2
  · exact ⟨href, p, hh, hposts, hm, (parse_message_mono today st thread div st2 t2 h).2.1⟩

/-- Witness for C2 at concrete inputs: post 75 already stored is skipped
unchanged; ingesting post 75 into the empty store appends exactly one matching
Post; re-running the two-post page over its own result is the identity. -/
theorem c2_witness :
    parse_message exToday exSt75 exThreadNew exDiv75 = .ok (exSt75, exThreadNew)
    ∧ (∃ href p, getFirstHref exDiv75 = .ok href ∧
        exStAfter75.db.posts = exStEmpty.db.posts ++ [p] ∧
        strMatchesId (extractPostId href) p.id = true ∧
        msgSkipped exStAfter75.db exDiv75 = true)
    ∧ parse_thread_page exToday exThreadSoup exStFull exThreadSaved
        = .ok (exStFull, exThreadSaved) :=
  ⟨(c2_post_ingestion_idempotent exToday).1 exSt75 exThreadNew exDiv75 rfl,
   (c2_post_ingestion_idempotent exToday).2.1 exStEmpty exThreadNew exDiv75
     exStAfter75 exThreadSaved rfl rfl,
   (c2_post_ingestion_idempotent exToday).2.2 exThreadSoup exStEmpty exThreadNew
     exStFull exThreadSaved rfl⟩

/-- C3 (code bug): the spec says a moved listing entry is logged and skipped,
but the moved branch of the source (line 203) only prints and then falls
through to line 209, so the moved entry is still parsed as a normal thread.
At a concrete moved entry the result equals `parse_thread`, which fetches the
moved thread URL (the fetch log grows from empty to that URL). -/
theorem c3_moved_entry_still_parsed :
    isMoved exMovedEntry.h3 = true
    ∧ processEntry exEmptyWeb exToday exRoom exSt40 exMovedEntry
        = parse_thread exEmptyWeb exToday exSt40 exRoom exMovedEntry
    ∧ processEntry exEmptyWeb exToday exRoom exSt40 exMovedEntry
        = .ok ⟨exDb40, [exMovedHref]⟩ :=
  ⟨rfl, rfl, rfl⟩

/-- C4 counterexample: a root listing carries a single room entry named
NewRoom whose advertised latest post id 40 is already stored; the full run
changes nothing (only the root fetch is logged) and no Room record for
NewRoom, or any room at all, exists afterwards. -/
theorem c4_counterexample :
    (entriesOf exRootSoup).map (fun e => e.h3.text) = ["NewRoom"]
    ∧ main exWebRoot exToday exStPost40 = .ok ⟨exDbPost40, [url]⟩
    ∧ exDbPost40.rooms = [] :=
  ⟨rfl, rfl, rfl⟩

/-- C4 (amended): for a room entry with a link at the forum root, when the
advertised latest post id is already stored the entry is skipped with the
state unchanged and no Room record is created; otherwise the crawler proceeds
into `parse_room`, and whenever `parse_room` succeeds the repository afterwards
holds a Room record with the entry name. -/
theorem c4_amended_room_resolution (w : Web) (today : Date) (st : St) (e : Entry)
    (mid : Nat) (a : Node) (ha : e.h3.findTag "a" none = some a)
    (hgli : get_latest_id e = .ok mid) :
    (postExists st.db mid = true → mainEntryStep w today st e = .ok st)
    ∧ (postExists st.db mid = false →
        mainEntryStep w today st e = parse_room w today st e)
    ∧ (∀ st2, parse_room w today st e = .ok st2 →
        ∃ r, r ∈ st2.db.rooms ∧ r.name = a.text) := by
  refine ⟨?_, ?_, fun st2 h => parse_room_creates w today st e st2 a ha h⟩
  · intro hex
    unfold mainEntryStep
    simp [ha, hgli, hex]
  · intro hex
    unfold mainEntryStep
    simp [ha, hgli, hex]

/-- Witness for C4 at concrete inputs: from the empty store the NewRoom entry
is dispatched into `parse_room`, and the successful run leaves a Room record
named NewRoom. -/
theorem c4_witness :
    mainEntryStep exWebRoot exToday exStNoRooms exRootEntry
        = parse_room exWebRoot exToday exStNoRooms exRootEntry
    ∧ (∃ r, r ∈ exStNewRoom.db.rooms ∧ r.name = "NewRoom") := by
  have h := c4_amended_room_resolution exWebRoot exToday exStNoRooms exRootEntry 40
    (Node.tag "a" [("href", exNewRoomHref)] [] [.nstring "NewRoom"]) rfl rfl
  exact ⟨h.2.1 rfl, h.2.2 exStNewRoom rfl⟩

/-- C5: relative timestamp forms resolve against the current UTC date: with
UTC date 2024-03-10 the input Yesterday 18:30:14 resolves to
2024-03-09T18:30:14, Today 09:00:00 resolves to 2024-03-10T09:00:00, and the
absolute input 2024-03-05T12:00:00 resolves to itself unchanged. -/
theorem c5_relative_date_resolution :
    parse_datetime ⟨2024, 3, 10⟩ "Yesterday 18:30:14"
        = .ok ⟨⟨2024, 3, 9⟩, ⟨18, 30, 14⟩⟩
    ∧ parse_datetime ⟨2024, 3, 10⟩ "Today 09:00:00"
        = .ok ⟨⟨2024, 3, 10⟩, ⟨9, 0, 0⟩⟩
    ∧ parse_datetime ⟨2024, 3, 10⟩ "2024-03-05T12:00:00"
        = .ok ⟨⟨2024, 3, 5⟩, ⟨12, 0, 0⟩⟩ :=
  ⟨rfl, rfl, rfl⟩

/-- C6 counterexample: in a content element whose first (and only) div in
document order is nested inside a paragraph, the find of line 316 returns that
nested div (its text is SIG), yet the normalized body HelloSIG still contains
SIG, so the signature content does appear in the stored body, contrary to the
claim that it never does. -/
theorem c6_counterexample :
    (exNestedContent.findTag "div" none).map Node.text = some "SIG"
    ∧ buildBody exNestedContent = "HelloSIG"
    ∧ occursIn "SIG" (buildBody exNestedContent) = true :=
  ⟨rfl, rfl, rfl⟩

/-- C7: the thread starter is set exactly once, by the firstpost-marked
fragment at its first ingestion: a fragment whose post id is already stored
(as on any revisit of the thread) leaves the state and the thread record,
including its starter, unchanged; a firstpost fragment with a new id sets the
resulting thread starter to the id of the resolved author. -/
theorem c7_thread_starter_once (today : Date) (st : St) (thread : Thread) (div : Node)
    (st2 : St) (t2 : Thread) :
    (msgSkipped st.db div = true →
      parse_message today st thread div = .ok (st, thread))
    ∧ (msgSkipped st.db div = false → div.classes.contains "firstpost" = true →
        parse_message today st thread div = .ok (st2, t2) →
        ∃ un dbu u, getUsername div = .ok un ∧
          resolveUser today st.db div un = .ok (dbu, u) ∧ t2.userId = some u.id) := by
  refine ⟨parse_message_skip today st thread div, ?_⟩
  intro hs hc h
  rcases parse_message_cases today st thread div st2 t2 h with
    ⟨hs2, _, _⟩ | ⟨_, _, _, _, _, _, _, _, hstart⟩
  · rw [hs] at hs2; exact Bool.noConfusion hs2
  · exact hstart hc

/-- Witness for C7 at concrete inputs: revisiting the stored firstpost 75
changes nothing, and ingesting it fresh sets the thread starter to the
resolved author. -/
theorem c7_witness :
    parse_message exToday exSt75 exThreadSaved exDiv75 = .ok (exSt75, exThreadSaved)
    ∧ (∃ un dbu u, getUsername exDiv75 = .ok un ∧
        resolveUser exToday exStEmpty.db exDiv75 un = .ok (dbu, u) ∧
        exThreadSaved.userId = some u.id) :=
  ⟨(c7_thread_starter_once exToday exSt75 exThreadSaved exDiv75 exSt75 exThreadSaved).1 rfl,
   (c7_thread_starter_once exToday exStEmpty exThreadNew exDiv75
     exStAfter75 exThreadSaved).2 rfl rfl rfl⟩

/-- C8: Room and User records stay unique by name: the Identity Resolver
returns a user with the requested name that is in the store, performing at
most one insert and preserving name-uniqueness of users; the room resolution
of `parse_room` does the same for rooms. -/
theorem c8_name_uniqueness (today : Date) (db : DB) (div : Node) (un : String)
    (db2 : DB) (u : User) (nm : String) :
    (resolveUser today db div un = .ok (db2, u) →
      u.name = un ∧ u ∈ db2.users ∧
      (db2.users = db.users ∨ db2.users = db.users ++ [u]) ∧
      ((db.users.map User.name).Nodup → (db2.users.map User.name).Nodup))
    ∧ ((resolveRoom db nm).2.name = nm
        ∧ (resolveRoom db nm).2 ∈ (resolveRoom db nm).1.rooms
        ∧ ((resolveRoom db nm).1.rooms = db.rooms
            ∨ (resolveRoom db nm).1.rooms = db.rooms ++ [(resolveRoom db nm).2])
        ∧ ((db.rooms.map Room.name).Nodup →
            ((resolveRoom db nm).1.rooms.map Room.name).Nodup)) := by
  constructor
  · intro h
    obtain ⟨_, _, _, hu_name, hu_mem, hu_or⟩ := resolveUser_spec today db div un db2 u h
    refine ⟨hu_name, hu_mem, ?_, ?_⟩
    · rcases hu_or with h1 | ⟨h1, _⟩
      · exact Or.inl h1
      · exact Or.inr h1
    · intro hnodup
      rcases hu_or with h1 | ⟨h1, hnone⟩
      · rw [h1]; exact hnodup
      · rw [h1, List.map_append]
        apply nodup_snoc _ _ hnodup
        intro hmem
        obtain ⟨x, hx, hxe⟩ := List.mem_map.mp hmem
        exact hnone x hx (by rw [hxe, hu_name])
  · obtain ⟨_, _, _, hr_name, hr_mem, hr_or⟩ := resolveRoom_spec db nm
    refine ⟨hr_name, hr_mem, ?_, ?_⟩
    · rcases hr_or with h1 | ⟨h1, _⟩
      · exact Or.inl h1
      · exact Or.inr h1
    · intro hnodup
      rcases hr_or with h1 | ⟨h1, hnone⟩
      · rw [h1]; exact hnodup
      · rw [h1, List.map_append]
        apply nodup_snoc _ _ hnodup
        intro hmem
        obtain ⟨x, hx, hxe⟩ := List.mem_map.mp hmem
        exact hnone x hx (by rw [hxe, hr_name])

/-- Witness for C8 at concrete inputs: creating alice in the empty store gives
a store with a single user of that name and distinct names; resolving NewRoom
in the empty store returns a room named NewRoom that is in the store. -/
theorem c8_witness :
    ((⟨1, "alice", none⟩ : User).name = "alice"
      ∧ (⟨1, "alice", none⟩ : User) ∈ exDbAlice.users
      ∧ (exDbAlice.users = exDbEmpty.users
          ∨ exDbAlice.users = exDbEmpty.users ++ [⟨1, "alice", none⟩])
      ∧ (exDbAlice.users.map User.name).Nodup)
    ∧ ((resolveRoom exDbEmpty "NewRoom").2.name = "NewRoom"
      ∧ (resolveRoom exDbEmpty "NewRoom").2 ∈ (resolveRoom exDbEmpty "NewRoom").1.rooms) := by
  have h := c8_name_uniqueness exToday exDbEmpty exDiv75 "alice" exDbAlice
    ⟨1, "alice", none⟩ "NewRoom"
  obtain ⟨ha, hb, hc, hd⟩ := h.1 rfl
  exact ⟨⟨ha, hb, hc, hd (by decide)⟩, h.2.1, h.2.2.1⟩

/-- C9: a malformed listing entry raises an unrecoverable assertion failure in
`get_latest_id` (missing last-post summary or missing link inside it), the
error propagates through the entry loop so the room traversal halts with no
record written for that entry, and a well-formed entry with a parseable link
never fails. -/
theorem c9_malformed_entry_asserts (e : Entry) (w : Web) (today : Date) (room : Room)
    (st : St) :
    (e.container.findTag "li" (some "info-lastpost") = none →
      get_latest_id e = .error "AssertionError: isinstance(li, Tag)")
    ∧ (∀ li, e.container.findTag "li" (some "info-lastpost") = some li →
        li.findTag "a" none = none →
        get_latest_id e = .error "AssertionError: invalid thread header")
    ∧ (∀ li a href seg n,
        e.container.findTag "li" (some "info-lastpost") = some li →
        li.findTag "a" none = some a → a.attr "href" = some href →
        (pySplit ⟨href.data.drop url.data.length⟩ '/')[1]? = some seg →
        parseNatQ seg = some n → get_latest_id e = .ok n)
    ∧ (∀ msg es, isMoved e.h3 = false → get_latest_id e = .error msg →
        entriesLoop w today room (e :: es) st = .error msg) := by
  refine ⟨?_, ?_, ?_, ?_⟩
  · intro h1
    unfold get_latest_id
    rw [h1]
  · intro li h1 h2
    unfold get_latest_id
    simp only [h1, h2]
  · intro li a href seg n h1 h2 h3 h4 h5
    unfold get_latest_id
    simp only [h1, h2, h3, h4, h5]
  · intro msg es hmoved hg
    exact entriesLoop_error w today room e es st msg
      (processEntry_error w today room st e msg hmoved hg)

/-- Witness for C9 at concrete inputs: the entry without a last-post summary
and the entry whose summary has no link both raise their assertion errors, a
well-formed entry yields its id, and the error halts the entry loop. -/
theorem c9_witness :
    get_latest_id exBadEntry1 = .error "AssertionError: isinstance(li, Tag)"
    ∧ get_latest_id exBadEntry2 = .error "AssertionError: invalid thread header"
    ∧ get_latest_id exEntry77 = .ok 77
    ∧ entriesLoop exWeb exToday exRoom [exBadEntry1] exStEmpty
        = .error "AssertionError: isinstance(li, Tag)" :=
  ⟨(c9_malformed_entry_asserts exBadEntry1 exWeb exToday exRoom exStEmpty).1 rfl,
   (c9_malformed_entry_asserts exBadEntry2 exWeb exToday exRoom exStEmpty).2.1 _ rfl rfl,
   (c9_malformed_entry_asserts exEntry77 exWeb exToday exRoom exStEmpty).2.2.1
     _ _ _ _ 77 rfl rfl rfl rfl rfl,
   (c9_malformed_entry_asserts exBadEntry1 exWeb exToday exRoom exStEmpty).2.2.2
     _ [] rfl rfl⟩

/-- C10: the freshness check also runs at room level: a root entry with a link
whose advertised latest post id already exists as a stored Post id is skipped
with the crawl state returned unchanged, so no fetch is logged for the room
and no repository write, in particular no Room record, happens for it. -/
theorem c10_room_level_freshness (w : Web) (today : Date) (st : St) (e : Entry)
    (a : Node) (mid : Nat) (ha : e.h3.findTag "a" none = some a)
    (hgli : get_latest_id e = .ok mid) (hex : postExists st.db mid = true) :
    mainEntryStep w today st e = .ok st := by
  unfold mainEntryStep
  simp [ha, hgli, hex]

/-- Witness for C10 at a concrete input: the never-seen NewRoom entry whose
latest post 40 is stored is skipped with the state unchanged. -/
theorem c10_witness :
    mainEntryStep exWebRoot exToday exStPost40 exRootEntry = .ok exStPost40 :=
  c10_room_level_freshness exWebRoot exToday exStPost40 exRootEntry
    (Node.tag "a" [("href", exNewRoomHref)] [] [.nstring "NewRoom"]) 40 rfl rfl rfl

end Agfd
